import Mathlib

/-!
# Verification of the `react-class-variants` resolution core

Shallow embedding of the variant-resolution engine of the repository
(`defineConfig` in `src/index.ts`, revised copy with `forwardProps` support
in the unnamed source part): the class-name flattener `mergeClassNames`,
the resolver returned by `variants`, and the props splitter
`variantPropsResolver`.

JavaScript values that the library inspects are modelled by `JSVal`:
strings, booleans, `null`, `undefined`, arrays, and opaque objects.  An
opaque object carries a `Nat` tag modelling its reference identity (two
distinct objects never compare `===`-equal; the model gives distinct
objects distinct tags).  Two arrays are never `===`-equal in JavaScript
unless they are the same reference; the model conservatively renders
`===` on two arrays as `false`, which matches every comparison the
library actually performs (array condition values are routed through the
`Array.isArray` branch before any `===`).

Plain objects (props, configs) are modelled as association lists
`List (String × JSVal)` iterated in insertion order, matching `for...in`
over a plain-object literal.
-/

namespace RCV

/-- A JavaScript value as far as this library inspects it. -/
inductive JSVal : Type where
  | und : JSVal
  | nul : JSVal
  | str (s : String) : JSVal
  | bool (b : Bool) : JSVal
  | obj (tag : Nat) : JSVal
  | arr (xs : List JSVal) : JSVal

namespace JSVal

/-- `v == null` / `v == undefined`: the values treated as absent by `??`. -/
def nullish : JSVal → Bool
  | .und => true
  | .nul => true
  | _ => false

/-- JavaScript truthiness restricted to the values of the model:
`undefined`/`null`/`""`/`false` are falsy, everything else truthy. -/
def truthy : JSVal → Bool
  | .und => false
  | .nul => false
  | .str s => !(s == "")
  | .bool b => b
  | .obj _ => true
  | .arr _ => true

/-- `===` between two values, as used by `selected === cvSelector` and
`Array.prototype.includes`.  Objects compare by reference identity
(modelled by the tag); two array values are never the same reference in
the comparisons the library performs. -/
def eqJS : JSVal → JSVal → Bool
  | .und, .und => true
  | .nul, .nul => true
  | .str a, .str b => a == b
  | .bool a, .bool b => a == b
  | .obj a, .obj b => a == b
  | .arr _, .arr _ => false
  | _, _ => false

end JSVal

mutual

/-- `String(v)`: the coercion JavaScript applies when a value is used as a
property key or joined into a string.  Arrays join their elements with
`","`, rendering `null`/`undefined` elements as the empty string. -/
def jsToString : JSVal → String
  | .und => "undefined"
  | .nul => "null"
  | .str s => s
  | .bool b => cond b "true" "false"
  | .obj _ => "[object Object]"
  | .arr xs => jsArrToString xs

def jsArrToString : List JSVal → String
  | [] => ""
  | x :: xs =>
    (cond x.nullish "" (jsToString x)) ++
      (match xs with
       | [] => ""
       | _ => "," ++ jsArrToString xs)

end

mutual

/-- `Array.prototype.flat(Infinity)` applied to one value: arrays are
flattened through all nesting levels, every non-array value is an atom. -/
def flatAtoms : JSVal → List JSVal
  | .arr xs => flatAtomsList xs
  | .und => [.und]
  | .nul => [.nul]
  | .str s => [.str s]
  | .bool b => [.bool b]
  | .obj t => [.obj t]

def flatAtomsList : List JSVal → List JSVal
  | [] => []
  | x :: xs => flatAtoms x ++ flatAtomsList xs

end

/-- `classNames.flat(Infinity).filter(Boolean).join(' ')` from
`mergeClassNames`, before the optional hook. -/
def joinClassNames (classNames : List JSVal) : String :=
  String.intercalate " " (((flatAtomsList classNames).filter JSVal.truthy).map jsToString)

/-- `mergeClassNames` from `defineConfig`: flatten, drop falsy entries,
join with a space, then apply `onClassesMerged` when configured. -/
def mergeClassNames (onClassesMerged : Option (String → String))
    (classNames : List JSVal) : String :=
  match onClassesMerged with
  | some h => h (joinClassNames classNames)
  | none => joinClassNames classNames

/-- `mergeClassNames` with a hook that may throw: the body has no
`try`/`catch`, so a throwing `onClassesMerged` propagates unchanged
(modelled by `Except`). -/
def mergeClassNamesE {ε : Type} (onClassesMerged : Option (String → Except ε String))
    (classNames : List JSVal) : Except ε String :=
  match onClassesMerged with
  | some h => h (joinClassNames classNames)
  | none => Except.ok (joinClassNames classNames)

/-! ## Plain-object operations on association lists

An object's properties are the bindings of the list in insertion order;
a well-formed object has no duplicate keys (`NodupKeys`). -/

/-- `obj?.[k]`: property access, yielding `undefined` on a miss. -/
def jget : List (String × JSVal) → String → JSVal
  | [], _ => .und
  | p :: ps, k => if p.1 == k then p.2 else jget ps k

/-- `hasOwnProperty(obj, k)` from `utils.ts`. -/
def hasOwn : List (String × JSVal) → String → Bool
  | [], _ => false
  | p :: ps, k => p.1 == k || hasOwn ps k

/-- Property assignment `obj[k] = v`: an existing key keeps its position,
a new key is appended at the end, matching JavaScript insertion order. -/
def setP : List (String × JSVal) → String → JSVal → List (String × JSVal)
  | [], k, v => [(k, v)]
  | p :: ps, k, v => if p.1 == k then (k, v) :: ps else p :: setP ps k v

/-- `delete obj[k]`. -/
def delP (l : List (String × JSVal)) (k : String) : List (String × JSVal) :=
  l.filter (fun p => !(p.1 == k))

/-- A well-formed plain object binds every key at most once. -/
def NodupKeys (l : List (String × JSVal)) : Prop :=
  (l.map Prod.fst).Nodup

/-- Number of bindings of key `k` in the object. -/
def countKey (l : List (String × JSVal)) (k : String) : Nat :=
  (l.filter (fun p => p.1 == k)).length

/-! ## The variants configuration -/

/-- One axis's option map: option key → class-name fragment, in
declaration order. -/
abbrev AxisOptions := List (String × JSVal)

/-- The `variants` map: axis name → option map, in declaration order. -/
abbrev Schema := List (String × AxisOptions)

/-- One entry of `compoundVariants`: a condition object (axis name →
single value or array of values) and the fragment to append. -/
structure Compound where
  variants : List (String × JSVal) := []
  className : JSVal := .und

/-- `VariantsConfig`: `variants := none` models a configuration whose
`variants` entry is absent or nullish (the `!('variants' in config) ||
!config.variants` test); `some []` models an empty-but-present map. -/
structure VariantsConfig where
  base : JSVal := .und
  variants : Option Schema := none
  defaultVariants : List (String × JSVal) := []
  compoundVariants : List Compound := []

/-- `isBooleanVariant`: the axis's option map contains the key `"false"`
or the key `"true"`. -/
def isBooleanVariant (schema : Schema) (name : String) : Bool :=
  match schema.find? (fun a => a.1 == name) with
  | some a => hasOwn a.2 "false" || hasOwn a.2 "true"
  | none => false

/-- `getSelectedVariant`: caller value if not nullish, else configured
default if not nullish, else `false` for a boolean axis, else
`undefined`. -/
def getSelectedVariant (schema : Schema) (defaultVariants : List (String × JSVal))
    (props : List (String × JSVal)) (name : String) : JSVal :=
  let p := jget props name
  if p.nullish then
    let d := jget defaultVariants name
    if d.nullish then
      if isBooleanVariant schema name then .bool false else .und
    else d
  else p

/-- The body of `if (selected !== undefined) result.push(variants[name]?.[selected])`
for one axis: the list of values pushed for it (empty or a singleton). -/
def axisPush (schema : Schema) (defaultVariants : List (String × JSVal))
    (props : List (String × JSVal)) (axis : String × AxisOptions) : List JSVal :=
  match getSelectedVariant schema defaultVariants props axis.1 with
  | .und => []
  | sel => [jget axis.2 (jsToString sel)]

/-- The test of `isSelectedVariant` for one condition entry:
`Array.isArray(cvSelector) ? cvSelector.includes(selected) : selected === cvSelector`. -/
def condMatches (selected : JSVal) : JSVal → Bool
  | .arr vs => vs.any (fun v => JSVal.eqJS v selected)
  | cv => JSVal.eqJS selected cv

/-- `Object.keys(variants).every(isSelectedVariant)` for one compound rule. -/
def ruleMatches (schema : Schema) (defaultVariants : List (String × JSVal))
    (props : List (String × JSVal)) (rule : Compound) : Bool :=
  rule.variants.all (fun p =>
    condMatches (getSelectedVariant schema defaultVariants props p.1) p.2)

/-- The `result` array built by the resolver closure when `variants` is
present: `[base]`, then the axis loop, then the compound loop, then the
truthy `className` push. -/
def resolveList (schema : Schema) (defaultVariants : List (String × JSVal))
    (compoundVariants : List Compound) (base : JSVal)
    (props : List (String × JSVal)) : List JSVal :=
  let r0 := [base]
  let r1 := schema.foldl (fun acc ax => acc ++ axisPush schema defaultVariants props ax) r0
  let r2 := compoundVariants.foldl
    (fun acc rule => if ruleMatches schema defaultVariants props rule
                     then acc ++ [rule.className] else acc) r1
  if (jget props "className").truthy then r2 ++ [jget props "className"] else r2

/-- The resolver returned by `variants(config)`, applied to one props
object.  With no `variants` entry it short-circuits to
`mergeClassNames(base, props?.className)`; otherwise it merges the
`result` array built by the closure. -/
def resolveWith (onClassesMerged : Option (String → String))
    (config : VariantsConfig) (props : List (String × JSVal)) : String :=
  match config.variants with
  | none => mergeClassNames onClassesMerged [config.base, jget props "className"]
  | some schema =>
    mergeClassNames onClassesMerged
      [.arr (resolveList schema config.defaultVariants config.compoundVariants config.base props)]

/-- `resolveWith` with a hook that may throw, via `Except`. -/
def resolveWithE {ε : Type} (onClassesMerged : Option (String → Except ε String))
    (config : VariantsConfig) (props : List (String × JSVal)) : Except ε String :=
  match config.variants with
  | none => mergeClassNamesE onClassesMerged [config.base, jget props "className"]
  | some schema =>
    mergeClassNamesE onClassesMerged
      [.arr (resolveList schema config.defaultVariants config.compoundVariants config.base props)]

/-- The axis names of a schema, in declaration order. -/
def schemaKeys (schema : Schema) : List String :=
  schema.map Prod.fst

/-- The `className` push guard of the resolver closure, as a list:
`if (props?.className) result.push(props.className)`. -/
def overridePush (props : List (String × JSVal)) : List JSVal :=
  if (jget props "className").truthy then [jget props "className"] else []

/-! ## The props splitter (`variantPropsResolver`) -/

/-- `!forwardProps || !forwardProps.includes(variantKey)` decides deletion;
this is the positive membership test.  `none` models an absent
`forwardProps` (also the behaviour of the revision without the option). -/
def fwdContains (forwardProps : Option (List String)) (k : String) : Bool :=
  match forwardProps with
  | some l => l.contains k
  | none => false

/-- One iteration of the splitter's loop over the declared axes: when the
copy owns the axis key, the value is copied into `onlyVariantProps`
(`st.2`) and, unless forwarded, deleted from the copy (`st.1`). -/
def splitStep (forwardProps : Option (List String))
    (st : List (String × JSVal) × List (String × JSVal))
    (axis : String × AxisOptions) : List (String × JSVal) × List (String × JSVal) :=
  if hasOwn st.1 axis.1 then
    (if fwdContains forwardProps axis.1 then st.1 else delP st.1 axis.1,
     setP st.2 axis.1 (jget st.1 axis.1))
  else st

/-- The state after the splitter's loop: the copy `result = {...props}`
with consumed axis keys removed, and
`onlyVariantProps = {className: result.className, ...extracted axes}`. -/
def splitterPair (config : VariantsConfig) (forwardProps : Option (List String))
    (props : List (String × JSVal)) : List (String × JSVal) × List (String × JSVal) :=
  let init := (props, [("className", jget props "className")])
  match config.variants with
  | none => init
  | some schema => schema.foldl (splitStep forwardProps) init

/-- `variantPropsResolver(config)` applied to one props object: run the
extraction loop, then `result.className = variantsResolver(onlyVariantProps)`. -/
def variantPropsResolver (onClassesMerged : Option (String → String))
    (config : VariantsConfig) (forwardProps : Option (List String))
    (props : List (String × JSVal)) : List (String × JSVal) :=
  let st := splitterPair config forwardProps props
  setP st.1 "className" (.str (resolveWith onClassesMerged config st.2))

/-! ## Spec-side definitions

These two follow the words of the specification, not the code; they are
compared against the code-derived definitions in the theorems. -/

/-- The spec's ClassNameFragment domain: empty markers (null/absent),
text strings, and arbitrarily nested lists of fragments. -/
inductive IsFragment : JSVal → Prop where
  | str (s : String) : IsFragment (.str s)
  | nul : IsFragment .nul
  | und : IsFragment .und
  | arr (xs : List JSVal) : (∀ x ∈ xs, IsFragment x) → IsFragment (.arr xs)

mutual

/-- Modelled from the spec's words for the Flattener algorithm: flatten
all nesting into one ordered sequence, discard empty markers and exactly
empty strings, keep every other string verbatim. -/
def specSurvivors : JSVal → List String
  | .str s => if s == "" then [] else [s]
  | .nul => []
  | .und => []
  | .arr xs => specSurvivorsList xs
  | .bool _ => []
  | .obj _ => []

def specSurvivorsList : List JSVal → List String
  | [] => []
  | x :: xs => specSurvivors x ++ specSurvivorsList xs

end

/-! ## Lemmas about the object operations -/

theorem jget_eq_und_of_hasOwn_eq_false {l : List (String × JSVal)} {k : String}
    (h : hasOwn l k = false) : jget l k = .und := by
  induction l with
  | nil => rfl
  | cons p ps ih =>
    simp only [hasOwn, Bool.or_eq_false_iff] at h
    simp only [jget, h.1, ite_false, Bool.false_eq_true, if_neg]
    exact ih h.2

theorem jget_setP_self (l : List (String × JSVal)) (k : String) (v : JSVal) :
    jget (setP l k v) k = v := by
  induction l with
  | nil => simp [setP, jget]
  | cons p ps ih =>
    by_cases h : p.1 = k
    · simp [setP, jget, h]
    · simp only [setP, jget, beq_eq_false_iff_ne, h, if_neg, ite_false, Bool.false_eq_true,
        beq_iff_eq, not_false_eq_true]
      simpa [h] using ih

theorem jget_setP_ne {l : List (String × JSVal)} {k k2 : String} (v : JSVal)
    (h : k ≠ k2) : jget (setP l k v) k2 = jget l k2 := by
  induction l with
  | nil => simp [setP, jget, h]
  | cons p ps ih =>
    by_cases hp : p.1 = k
    · subst hp
      simp [setP, jget, h]
    · simp only [setP, beq_iff_eq, hp, if_neg, not_false_eq_true]
      by_cases hp2 : p.1 = k2
      · simp [jget, hp2]
      · simp [jget, hp2, ih]

theorem hasOwn_setP_ne {l : List (String × JSVal)} {k k2 : String} (v : JSVal)
    (h : k ≠ k2) : hasOwn (setP l k v) k2 = hasOwn l k2 := by
  induction l with
  | nil => simp [setP, hasOwn, h]
  | cons p ps ih =>
    by_cases hp : p.1 = k
    · subst hp
      simp [setP, hasOwn, h]
    · simp [setP, hasOwn, hp, ih]

theorem jget_delP_self (l : List (String × JSVal)) (k : String) :
    jget (delP l k) k = .und := by
  induction l with
  | nil => rfl
  | cons p ps ih =>
    by_cases hp : p.1 = k
    · simpa [delP, hp] using ih
    · simpa [delP, jget, hp] using ih

theorem jget_delP_ne {l : List (String × JSVal)} {k k2 : String}
    (h : k ≠ k2) : jget (delP l k) k2 = jget l k2 := by
  induction l with
  | nil => rfl
  | cons p ps ih =>
    unfold delP at ih ⊢
    by_cases hp : p.1 = k
    · have hp2 : p.1 ≠ k2 := by rw [hp]; exact h
      rw [List.filter_cons_of_neg (by simp [hp])]
      rw [ih]
      simp [jget, hp2]
    · rw [List.filter_cons_of_pos (by simp [hp])]
      by_cases hp2 : p.1 = k2
      · simp [jget, hp2]
      · simp [jget, hp2, ih]

theorem hasOwn_delP_self (l : List (String × JSVal)) (k : String) :
    hasOwn (delP l k) k = false := by
  induction l with
  | nil => rfl
  | cons p ps ih =>
    by_cases hp : p.1 = k
    · simpa [delP, hp] using ih
    · simpa [delP, hasOwn, hp] using ih

theorem hasOwn_delP_ne {l : List (String × JSVal)} {k k2 : String}
    (h : k ≠ k2) : hasOwn (delP l k) k2 = hasOwn l k2 := by
  induction l with
  | nil => rfl
  | cons p ps ih =>
    unfold delP at ih ⊢
    by_cases hp : p.1 = k
    · have hp2 : p.1 ≠ k2 := by rw [hp]; exact h
      rw [List.filter_cons_of_neg (by simp [hp])]
      rw [ih]
      simp [hasOwn, hp2]
    · rw [List.filter_cons_of_pos (by simp [hp])]
      simp [hasOwn, ih]

theorem nodupKeys_delP {l : List (String × JSVal)} (k : String)
    (h : NodupKeys l) : NodupKeys (delP l k) := by
  unfold NodupKeys at h ⊢
  exact h.sublist (List.Sublist.map Prod.fst (List.filter_sublist l))

theorem countKey_eq_zero_of_not_mem {l : List (String × JSVal)} {k : String}
    (h : k ∉ l.map Prod.fst) : countKey l k = 0 := by
  induction l with
  | nil => rfl
  | cons p ps ih =>
    simp only [List.map_cons, List.mem_cons, not_or] at h
    have hp : (p.1 == k) = false := by
      simp [beq_eq_false_iff_ne]
      exact fun hc => h.1 hc.symm
    simp only [countKey, List.filter_cons, hp, Bool.false_eq_true, if_neg, ite_false]
    exact ih h.2

theorem countKey_setP_self {l : List (String × JSVal)} (k : String) (v : JSVal)
    (h : NodupKeys l) : countKey (setP l k v) k = 1 := by
  induction l with
  | nil => simp [setP, countKey]
  | cons p ps ih =>
    unfold NodupKeys at h
    simp only [List.map_cons, List.nodup_cons] at h
    by_cases hp : p.1 = k
    · subst hp
      simp only [setP, beq_self_eq_true, if_pos, ite_true, countKey, List.filter_cons]
      simp only [beq_self_eq_true, if_pos, ite_true, List.length_cons]
      have := countKey_eq_zero_of_not_mem (l := ps) (k := p.1) h.1
      unfold countKey at this
      omega
    · simp only [setP, beq_iff_eq, hp, if_neg, not_false_eq_true]
      have hpk : (p.1 == k) = false := by simpa [beq_eq_false_iff_ne] using hp
      simp only [countKey, List.filter_cons, hpk, Bool.false_eq_true, if_neg, ite_false]
      exact ih h.2

/-! ## Lemmas about flattening and joining -/

theorem flatAtomsList_append (xs ys : List JSVal) :
    flatAtomsList (xs ++ ys) = flatAtomsList xs ++ flatAtomsList ys := by
  induction xs with
  | nil => simp [flatAtomsList]
  | cons x xs ih => simp [flatAtomsList, ih]

theorem flatAtomsList_eq_flatMap (xs : List JSVal) :
    flatAtomsList xs = xs.flatMap flatAtoms := by
  induction xs with
  | nil => simp [flatAtomsList]
  | cons x xs ih => simp [flatAtomsList, ih]

theorem joinClassNames_arr (l : List JSVal) :
    joinClassNames [.arr l] = joinClassNames l := by
  simp [joinClassNames, flatAtomsList, flatAtoms]

theorem mergeClassNames_arr (hook : Option (String → String)) (l : List JSVal) :
    mergeClassNames hook [.arr l] = mergeClassNames hook l := by
  cases hook <;> simp [mergeClassNames, joinClassNames_arr]

theorem joinClassNames_drop_mid {m : List JSVal}
    (hm : (flatAtomsList m).filter JSVal.truthy = []) (l₁ l₂ : List JSVal) :
    joinClassNames (l₁ ++ m ++ l₂) = joinClassNames (l₁ ++ l₂) := by
  simp [joinClassNames, flatAtomsList_append, List.filter_append, hm]

/-! ## Decomposition of the imperative result construction -/

theorem foldl_push_eq_flatMap {α β : Type} (f : α → List β) :
    ∀ (l : List α) (init : List β),
      l.foldl (fun acc x => acc ++ f x) init = init ++ l.flatMap f := by
  intro l
  induction l with
  | nil => intro init; simp
  | cons x xs ih => intro init; simp [List.foldl_cons, ih]

theorem foldl_guard_push_eq_filter_map {α β : Type} (p : α → Bool) (g : α → β) :
    ∀ (l : List α) (init : List β),
      l.foldl (fun acc x => if p x then acc ++ [g x] else acc) init
        = init ++ (l.filter p).map g := by
  intro l
  induction l with
  | nil => intro init; simp
  | cons x xs ih =>
    intro init
    by_cases hx : p x = true
    · simp [List.foldl_cons, hx, ih, List.filter_cons]
    · simp only [Bool.not_eq_true] at hx
      simp [List.foldl_cons, hx, ih, List.filter_cons]

/-- The `result` array equals `[base] ++ axis fragments ++ matched compound
fragments ++ override`, each part in declaration order. -/
theorem resolveList_eq (schema : Schema) (dv : List (String × JSVal))
    (cvs : List Compound) (base : JSVal) (props : List (String × JSVal)) :
    resolveList schema dv cvs base props
      = [base] ++ schema.flatMap (axisPush schema dv props)
          ++ (cvs.filter (ruleMatches schema dv props)).map Compound.className
          ++ overridePush props := by
  unfold resolveList overridePush
  dsimp only
  rw [foldl_push_eq_flatMap, foldl_guard_push_eq_filter_map]
  by_cases hcn : (jget props "className").truthy = true
  · simp [hcn, List.append_assoc]
  · simp only [Bool.not_eq_true] at hcn
    simp [hcn, List.append_assoc]

/-! ## The resolver reads the request only through property lookups -/

theorem getSelectedVariant_ext {props₁ props₂ : List (String × JSVal)}
    (h : ∀ n, jget props₁ n = jget props₂ n)
    (schema : Schema) (dv : List (String × JSVal)) (name : String) :
    getSelectedVariant schema dv props₁ name = getSelectedVariant schema dv props₂ name := by
  unfold getSelectedVariant
  rw [h name]

theorem axisPush_ext {props₁ props₂ : List (String × JSVal)}
    (h : ∀ n, jget props₁ n = jget props₂ n)
    (schema : Schema) (dv : List (String × JSVal)) (axis : String × AxisOptions) :
    axisPush schema dv props₁ axis = axisPush schema dv props₂ axis := by
  unfold axisPush
  rw [getSelectedVariant_ext h]

theorem ruleMatches_ext {props₁ props₂ : List (String × JSVal)}
    (h : ∀ n, jget props₁ n = jget props₂ n)
    (schema : Schema) (dv : List (String × JSVal)) (rule : Compound) :
    ruleMatches schema dv props₁ rule = ruleMatches schema dv props₂ rule := by
  unfold ruleMatches
  have hfun : (fun p : String × JSVal =>
        condMatches (getSelectedVariant schema dv props₁ p.1) p.2)
      = (fun p : String × JSVal =>
        condMatches (getSelectedVariant schema dv props₂ p.1) p.2) := by
    funext p
    rw [getSelectedVariant_ext h]
  rw [hfun]

theorem resolveList_ext {props₁ props₂ : List (String × JSVal)}
    (h : ∀ n, jget props₁ n = jget props₂ n)
    (schema : Schema) (dv : List (String × JSVal)) (cvs : List Compound) (base : JSVal) :
    resolveList schema dv cvs base props₁ = resolveList schema dv cvs base props₂ := by
  rw [resolveList_eq, resolveList_eq]
  have hax : (axisPush schema dv props₁) = (axisPush schema dv props₂) :=
    funext (axisPush_ext h schema dv)
  have hrm : (ruleMatches schema dv props₁) = (ruleMatches schema dv props₂) :=
    funext (ruleMatches_ext h schema dv)
  unfold overridePush
  rw [hax, hrm, h "className"]

theorem resolveWith_ext {props₁ props₂ : List (String × JSVal)}
    (h : ∀ n, jget props₁ n = jget props₂ n)
    (hook : Option (String → String)) (config : VariantsConfig) :
    resolveWith hook config props₁ = resolveWith hook config props₂ := by
  unfold resolveWith
  cases config.variants with
  | none =>
    dsimp only
    rw [h "className"]
  | some schema =>
    dsimp only
    rw [resolveList_ext h]

/-! ## The flattener agrees with the spec-side survivor computation -/

theorem survivorsList_of_forall :
    ∀ (l : List JSVal),
      (∀ x ∈ l, ((flatAtoms x).filter JSVal.truthy).map jsToString = specSurvivors x) →
      ((flatAtomsList l).filter JSVal.truthy).map jsToString = specSurvivorsList l := by
  intro l
  induction l with
  | nil => intro _; simp [flatAtomsList, specSurvivorsList]
  | cons x xs ih =>
    intro h
    simp only [flatAtomsList, specSurvivorsList, List.filter_append, List.map_append]
    rw [h x (List.mem_cons_self x xs), ih (fun y hy => h y (List.mem_cons_of_mem x hy))]

theorem survivors_of_fragment {a : JSVal} (h : IsFragment a) :
    ((flatAtoms a).filter JSVal.truthy).map jsToString = specSurvivors a := by
  induction h with
  | str s =>
    by_cases hs : s = ""
    · simp [flatAtoms, specSurvivors, JSVal.truthy, hs]
    · simp [flatAtoms, specSurvivors, JSVal.truthy, hs, jsToString]
  | nul => simp [flatAtoms, specSurvivors, JSVal.truthy]
  | und => simp [flatAtoms, specSurvivors, JSVal.truthy]
  | arr xs _ ih =>
    simp only [flatAtoms, specSurvivors]
    exact survivorsList_of_forall xs ih

theorem specSurvivorsList_eq_flatMap (l : List JSVal) :
    specSurvivorsList l = l.flatMap specSurvivors := by
  induction l with
  | nil => simp [specSurvivorsList]
  | cons x xs ih => simp [specSurvivorsList, ih]

/-! ## Invariants of the splitter loop -/

theorem splitStep_fst_nodup (fps : Option (List String))
    (st : List (String × JSVal) × List (String × JSVal)) (ax : String × AxisOptions)
    (h : NodupKeys st.1) : NodupKeys (splitStep fps st ax).1 := by
  unfold splitStep
  by_cases h1 : hasOwn st.1 ax.1 = true
  · by_cases h2 : fwdContains fps ax.1 = true
    · simpa [h1, h2] using h
    · simp only [Bool.not_eq_true] at h2
      simpa [h1, h2] using nodupKeys_delP ax.1 h
  · simp only [Bool.not_eq_true] at h1
    simpa [h1] using h

theorem splitterLoop_fst_nodup (fps : Option (List String)) :
    ∀ (schema : Schema) (st : List (String × JSVal) × List (String × JSVal)),
      NodupKeys st.1 → NodupKeys (schema.foldl (splitStep fps) st).1 := by
  intro schema
  induction schema with
  | nil => intro st h; exact h
  | cons ax rest ih =>
    intro st h
    exact ih (splitStep fps st ax) (splitStep_fst_nodup fps st ax h)

theorem splitStep_fst_preserve_ne (fps : Option (List String))
    (st : List (String × JSVal) × List (String × JSVal)) (ax : String × AxisOptions)
    {k : String} (hk : ax.1 ≠ k) :
    jget (splitStep fps st ax).1 k = jget st.1 k
      ∧ hasOwn (splitStep fps st ax).1 k = hasOwn st.1 k := by
  unfold splitStep
  by_cases h1 : hasOwn st.1 ax.1 = true
  · by_cases h2 : fwdContains fps ax.1 = true
    · simp [h1, h2]
    · simp only [Bool.not_eq_true] at h2
      simp [h1, h2, jget_delP_ne hk, hasOwn_delP_ne hk]
  · simp only [Bool.not_eq_true] at h1
    simp [h1]

theorem splitterLoop_fst_preserve_notin (fps : Option (List String)) :
    ∀ (schema : Schema) (st : List (String × JSVal) × List (String × JSVal)) {k : String},
      (∀ ax ∈ schema, ax.1 ≠ k) →
      jget (schema.foldl (splitStep fps) st).1 k = jget st.1 k
        ∧ hasOwn (schema.foldl (splitStep fps) st).1 k = hasOwn st.1 k := by
  intro schema
  induction schema with
  | nil => intro st k _; exact ⟨rfl, rfl⟩
  | cons ax rest ih =>
    intro st k h
    have hax : ax.1 ≠ k := h ax (List.mem_cons_self ax rest)
    have hrest := ih (splitStep fps st ax) (fun a ha => h a (List.mem_cons_of_mem ax ha))
    have hstep := splitStep_fst_preserve_ne fps st ax hax
    exact ⟨hrest.1.trans hstep.1, hrest.2.trans hstep.2⟩

theorem splitStep_fst_absent_mono (fps : Option (List String))
    (st : List (String × JSVal) × List (String × JSVal)) (ax : String × AxisOptions)
    {k : String} (h : hasOwn st.1 k = false) :
    hasOwn (splitStep fps st ax).1 k = false := by
  unfold splitStep
  by_cases h1 : hasOwn st.1 ax.1 = true
  · by_cases hk : ax.1 = k
    · subst hk
      rw [h] at h1
      cases h1
    · by_cases h2 : fwdContains fps ax.1 = true
      · simpa [h1, h2] using h
      · simp only [Bool.not_eq_true] at h2
        simpa [h1, h2, hasOwn_delP_ne hk] using h
  · simp only [Bool.not_eq_true] at h1
    simpa [h1] using h

theorem splitterLoop_fst_absent_mono (fps : Option (List String)) :
    ∀ (schema : Schema) (st : List (String × JSVal) × List (String × JSVal)) {k : String},
      hasOwn st.1 k = false →
      hasOwn (schema.foldl (splitStep fps) st).1 k = false := by
  intro schema
  induction schema with
  | nil => intro st k h; exact h
  | cons ax rest ih =>
    intro st k h
    exact ih (splitStep fps st ax) (splitStep_fst_absent_mono fps st ax h)

theorem splitterLoop_fst_deleted (fps : Option (List String)) :
    ∀ (schema : Schema) (st : List (String × JSVal) × List (String × JSVal)) {k : String},
      k ∈ schemaKeys schema → fwdContains fps k = false →
      hasOwn (schema.foldl (splitStep fps) st).1 k = false := by
  intro schema
  induction schema with
  | nil => intro st k hk _; simp [schemaKeys] at hk
  | cons ax rest ih =>
    intro st k hk hfwd
    by_cases hax : ax.1 = k
    · subst hax
      have habs : hasOwn (splitStep fps st ax).1 ax.1 = false := by
        unfold splitStep
        by_cases h1 : hasOwn st.1 ax.1 = true
        · simp [h1, hfwd, hasOwn_delP_self]
        · simp only [Bool.not_eq_true] at h1
          simp [h1]
      exact splitterLoop_fst_absent_mono fps rest (splitStep fps st ax) habs
    · simp only [schemaKeys, List.map_cons, List.mem_cons] at hk
      rcases hk with hk | hk
      · exact absurd hk.symm hax
      · exact ih (splitStep fps st ax) (by simpa [schemaKeys] using hk) hfwd

theorem splitterLoop_fst_forwarded (fps : Option (List String)) :
    ∀ (schema : Schema) (st : List (String × JSVal) × List (String × JSVal)) {k : String},
      fwdContains fps k = true →
      jget (schema.foldl (splitStep fps) st).1 k = jget st.1 k
        ∧ hasOwn (schema.foldl (splitStep fps) st).1 k = hasOwn st.1 k := by
  intro schema
  induction schema with
  | nil => intro st k _; exact ⟨rfl, rfl⟩
  | cons ax rest ih =>
    intro st k hfwd
    have hstep : jget (splitStep fps st ax).1 k = jget st.1 k
        ∧ hasOwn (splitStep fps st ax).1 k = hasOwn st.1 k := by
      by_cases hax : ax.1 = k
      · subst hax
        unfold splitStep
        by_cases h1 : hasOwn st.1 ax.1 = true
        · simp [h1, hfwd]
        · simp only [Bool.not_eq_true] at h1
          simp [h1]
      · exact splitStep_fst_preserve_ne fps st ax hax
    have hrest := ih (splitStep fps st ax) hfwd
    exact ⟨hrest.1.trans hstep.1, hrest.2.trans hstep.2⟩

theorem splitterLoop_snd_className (fps : Option (List String)) (c : JSVal) :
    ∀ (schema : Schema) (st : List (String × JSVal) × List (String × JSVal)),
      (hasOwn st.1 "className" = true → jget st.1 "className" = c) →
      jget st.2 "className" = c →
      jget (schema.foldl (splitStep fps) st).2 "className" = c := by
  intro schema
  induction schema with
  | nil => intro st _ h2; exact h2
  | cons ax rest ih =>
    intro st h1 h2
    refine ih (splitStep fps st ax) ?_ ?_
    · intro hcn
      simp only [splitStep] at hcn ⊢
      by_cases ho : hasOwn st.1 ax.1 = true
      · simp only [ho, ite_true] at hcn ⊢
        by_cases hf : fwdContains fps ax.1 = true
        · simp only [hf, ite_true] at hcn ⊢
          exact h1 hcn
        · simp only [Bool.not_eq_true] at hf
          simp only [hf, Bool.false_eq_true, ite_false] at hcn ⊢
          by_cases hax : ax.1 = "className"
          · rw [hax, hasOwn_delP_self] at hcn
            cases hcn
          · rw [hasOwn_delP_ne hax] at hcn
            rw [jget_delP_ne hax]
            exact h1 hcn
      · simp only [Bool.not_eq_true] at ho
        simp only [ho, Bool.false_eq_true, ite_false] at hcn ⊢
        exact h1 hcn
    · simp only [splitStep]
      by_cases ho : hasOwn st.1 ax.1 = true
      · simp only [ho, ite_true]
        by_cases hax : ax.1 = "className"
        · rw [hax] at ho ⊢
          rw [jget_setP_self]
          exact h1 ho
        · rw [jget_setP_ne _ hax]
          exact h2
      · simp only [Bool.not_eq_true] at ho
        simp only [ho, Bool.false_eq_true, ite_false]
        exact h2

/-- Pointwise-equal predicates give equal `List.all`. -/
theorem list_all_congr {α : Type} {l : List α} {f g : α → Bool}
    (h : ∀ x ∈ l, f x = g x) : l.all f = l.all g := by
  induction l with
  | nil => rfl
  | cons x xs ih =>
    simp only [List.all_cons]
    rw [h x (List.mem_cons_self x xs), ih (fun y hy => h y (List.mem_cons_of_mem x hy))]

/-- Pointwise-equal functions give equal `List.flatMap`. -/
theorem list_flatMap_congr {α β : Type} {l : List α} {f g : α → List β}
    (h : ∀ x ∈ l, f x = g x) : l.flatMap f = l.flatMap g := by
  induction l with
  | nil => rfl
  | cons x xs ih =>
    simp only [List.flatMap_cons]
    rw [h x (List.mem_cons_self x xs), ih (fun y hy => h y (List.mem_cons_of_mem x hy))]

/-! ## Claim theorems -/

/-- C1: the effective value of an axis is computed by priority — the
caller-supplied value when present and not nullish; otherwise the
configured default when present and not nullish; otherwise `false` when
the axis is boolean (its option map owns the key `"true"` or `"false"`),
in which case the fragment selected is the one under the key `"false"`;
otherwise the axis is unresolved and pushes nothing.  An explicit caller
value wins over any configured default (the first case holds for every
`defaultVariants`).  The closing conjuncts check the spec's Scenario B
(boolean axis, empty request → the `"false"` fragment) and Scenario C
(explicit value overrides the default). -/
theorem claim_C1 :
    (∀ (schema : Schema) (dv props : List (String × JSVal)) (name : String),
      ((jget props name).nullish = false →
         getSelectedVariant schema dv props name = jget props name)
      ∧ ((jget props name).nullish = true → (jget dv name).nullish = false →
         getSelectedVariant schema dv props name = jget dv name)
      ∧ ((jget props name).nullish = true → (jget dv name).nullish = true →
         isBooleanVariant schema name = true →
         getSelectedVariant schema dv props name = .bool false
           ∧ ∀ opts, axisPush schema dv props (name, opts) = [jget opts "false"])
      ∧ ((jget props name).nullish = true → (jget dv name).nullish = true →
         isBooleanVariant schema name = false →
         getSelectedVariant schema dv props name = .und
           ∧ ∀ opts, axisPush schema dv props (name, opts) = []))
    ∧ resolveWith none
        { variants := some [("disabled", [("true", .str "opacity-50"), ("false", .str "opacity-100")])] }
        [] = "opacity-100"
    ∧ resolveWith none
        { variants := some [("color", [("primary", .str "bg-blue"), ("secondary", .str "bg-gray")])],
          defaultVariants := [("color", .str "primary")] }
        [("color", .str "secondary")] = "bg-gray" := by
  refine ⟨?_, by rfl, by rfl⟩
  intro schema dv props name
  refine ⟨?_, ?_, ?_, ?_⟩
  · intro h
    simp [getSelectedVariant, h]
  · intro h1 h2
    simp [getSelectedVariant, h1, h2]
  · intro h1 h2 h3
    have hg : getSelectedVariant schema dv props name = .bool false := by
      simp [getSelectedVariant, h1, h2, h3]
    refine ⟨hg, ?_⟩
    intro opts
    simp only [axisPush, hg]
    rfl
  · intro h1 h2 h3
    have hg : getSelectedVariant schema dv props name = .und := by
      simp [getSelectedVariant, h1, h2, h3]
    refine ⟨hg, ?_⟩
    intro opts
    simp only [axisPush, hg]

/-- Witness for C1 at concrete inputs: an explicit caller value is the
effective value even when a default is configured. -/
theorem claim_C1_witness :
    getSelectedVariant [("color", [("primary", JSVal.str "bg-blue")])]
      [("color", JSVal.str "primary")] [("color", JSVal.str "secondary")] "color"
      = JSVal.str "secondary" :=
  (claim_C1.1 [("color", [("primary", JSVal.str "bg-blue")])]
    [("color", JSVal.str "primary")] [("color", JSVal.str "secondary")] "color").1 (by rfl)

/-- C2: with a variants map present, the output is the flattening of the
ordered sequence [base, axis fragments in axis declaration order, matched
compound fragments in rule declaration order, override last]; and two
requests with the same property lookups (in particular, key reorderings)
resolve identically. -/
theorem claim_C2 (hook : Option (String → String)) (config : VariantsConfig)
    (schema : Schema) (props : List (String × JSVal))
    (h : config.variants = some schema) :
    resolveWith hook config props
      = mergeClassNames hook
          ([config.base]
            ++ schema.flatMap (axisPush schema config.defaultVariants props)
            ++ ((config.compoundVariants.filter
                  (ruleMatches schema config.defaultVariants props)).map Compound.className)
            ++ overridePush props)
    ∧ (∀ props₂, (∀ n, jget props n = jget props₂ n) →
        resolveWith hook config props = resolveWith hook config props₂) := by
  constructor
  · unfold resolveWith
    rw [h]
    dsimp only
    rw [mergeClassNames_arr, resolveList_eq]
  · intro props₂ h2
    exact resolveWith_ext h2 hook config

/-- Witness for C2: base, axis fragment and override in order, at a
concrete configuration and request whose keys are supplied with the
override first. -/
theorem claim_C2_witness :
    resolveWith none
      { base := JSVal.str "btn",
        variants := some [("color", [("primary", JSVal.str "bg-blue")])] }
      [("className", JSVal.str "user"), ("color", JSVal.str "primary")]
      = mergeClassNames none [JSVal.str "btn", JSVal.str "bg-blue", JSVal.str "user"] :=
  ((claim_C2 none
      { base := JSVal.str "btn",
        variants := some [("color", [("primary", JSVal.str "bg-blue")])] }
      [("color", [("primary", JSVal.str "bg-blue")])]
      [("className", JSVal.str "user"), ("color", JSVal.str "primary")] rfl).1).trans (by rfl)

/-- C3: a compound rule matches exactly when every axis named in its
condition matches the effective value — equality against a single
condition value, membership for an array condition value; an empty
condition matches vacuously; and the rule loop appends the fragments of
precisely the matching rules, in declared order (all matching rules
apply). -/
theorem claim_C3 (schema : Schema) (dv props : List (String × JSVal)) :
    (∀ rule : Compound,
       (ruleMatches schema dv props rule = true ↔
         ∀ p ∈ rule.variants,
           condMatches (getSelectedVariant schema dv props p.1) p.2 = true)
       ∧ (rule.variants = [] → ruleMatches schema dv props rule = true))
    ∧ (∀ (cvs : List Compound) (init : List JSVal),
        cvs.foldl
            (fun acc r => if ruleMatches schema dv props r then acc ++ [r.className] else acc)
            init
          = init ++ (cvs.filter (ruleMatches schema dv props)).map Compound.className)
    ∧ (∀ sel s, condMatches sel (.str s) = JSVal.eqJS sel (.str s))
    ∧ (∀ sel vs, condMatches sel (.arr vs) = vs.any (fun v => JSVal.eqJS v sel)) := by
  refine ⟨?_, ?_, fun sel s => rfl, fun sel vs => rfl⟩
  · intro rule
    constructor
    · unfold ruleMatches
      exact List.all_eq_true
    · intro hempty
      unfold ruleMatches
      rw [hempty]
      rfl
  · intro cvs init
    exact foldl_guard_push_eq_filter_map _ _ cvs init

/-- Witness for C3: a rule with an empty condition matches vacuously. -/
theorem claim_C3_witness :
    ruleMatches [] [] [] { variants := [], className := JSVal.str "x" } = true :=
  ((claim_C3 [] [] []).1 { variants := [], className := JSVal.str "x" }).2 rfl

/-- C4: the flattener is the spec's procedure — flatten all nesting,
discard null/absent atoms and exactly-empty strings, keep all other
strings (including whitespace-only ones) verbatim, and join the survivors
with single spaces in left-to-right order.  Scenario E and a
whitespace-only fragment are checked concretely. -/
theorem claim_C4 :
    (∀ args : List JSVal, (∀ a ∈ args, IsFragment a) →
       joinClassNames args = String.intercalate " " (args.flatMap specSurvivors))
    ∧ mergeClassNames none
        [.arr [.str "a", .nul, .arr [.str "b", .und, .arr [.str "c"]]]] = "a b c"
    ∧ joinClassNames [.str " pad ", .nul, .str "x"] = " pad  x" := by
  refine ⟨?_, by rfl, by rfl⟩
  intro args h
  unfold joinClassNames
  rw [survivorsList_of_forall args (fun x hx => survivors_of_fragment (h x hx)),
    specSurvivorsList_eq_flatMap]

/-- Witness for C4: the general statement applied to a concrete nested
fragment list. -/
theorem claim_C4_witness :
    joinClassNames [JSVal.str "hey", JSVal.nul, JSVal.arr [JSVal.str ""]]
      = String.intercalate " "
          ([JSVal.str "hey", JSVal.nul, JSVal.arr [JSVal.str ""]].flatMap specSurvivors) :=
  claim_C4.1 [JSVal.str "hey", JSVal.nul, JSVal.arr [JSVal.str ""]]
    (by
      intro a ha
      simp only [List.mem_cons, List.not_mem_nil, or_false] at ha
      rcases ha with rfl | rfl | rfl
      · exact IsFragment.str "hey"
      · exact IsFragment.nul
      · refine IsFragment.arr _ ?_
        intro x hx
        simp only [List.mem_cons, List.not_mem_nil, or_false] at hx
        subst hx
        exact IsFragment.str "")

/-- C5: when the configuration has no variants entry, the resolver is the
fast path `mergeClassNames(base, props?.className)` for every request —
regardless of any `defaultVariants` or `compoundVariants` present, no
axis, default, or compound logic contributes. -/
theorem claim_C5 (hook : Option (String → String)) (config : VariantsConfig)
    (props : List (String × JSVal)) (h : config.variants = none) :
    resolveWith hook config props
      = mergeClassNames hook [config.base, jget props "className"] := by
  unfold resolveWith
  rw [h]

/-- Witness for C5 at a concrete configuration carrying (ignored)
defaults and compound rules. -/
theorem claim_C5_witness :
    resolveWith none
      { base := JSVal.str "base",
        defaultVariants := [("color", JSVal.str "primary")],
        compoundVariants := [{ variants := [], className := JSVal.str "ignored" }] }
      [("className", JSVal.str "custom")]
      = "base custom" :=
  (claim_C5 none
    { base := JSVal.str "base",
      defaultVariants := [("color", JSVal.str "primary")],
      compoundVariants := [{ variants := [], className := JSVal.str "ignored" }] }
    [("className", JSVal.str "custom")] rfl).trans (by rfl)

/-- C6: with a class-merge hook configured, every resolver call (and
every `mergeClassNames` call) is the hook applied exactly once to the
final joined string — the result is the hook's return value — and a
throwing hook propagates its error unchanged to the caller. -/
theorem claim_C6 {ε : Type} (config : VariantsConfig) (props : List (String × JSVal))
    (h : String → Except ε String) (g : String → String) :
    resolveWithE (some h) config props = h (resolveWith none config props)
    ∧ resolveWith (some g) config props = g (resolveWith none config props)
    ∧ (∀ e, h (resolveWith none config props) = Except.error e →
        resolveWithE (some h) config props = Except.error e)
    ∧ (∀ args, mergeClassNames (some g) args = g (mergeClassNames none args)
        ∧ mergeClassNamesE (some h) args = h (mergeClassNames none args)) := by
  have h1 : resolveWithE (some h) config props = h (resolveWith none config props) := by
    unfold resolveWithE resolveWith mergeClassNamesE mergeClassNames
    cases config.variants <;> rfl
  refine ⟨h1, ?_, ?_, ?_⟩
  · unfold resolveWith mergeClassNames
    cases config.variants <;> rfl
  · intro e he
    rw [h1, he]
  · intro args
    exact ⟨rfl, rfl⟩

/-- Witness for C6: a hook that always throws makes every resolver call
throw that same error. -/
theorem claim_C6_witness :
    resolveWithE (some (fun _ => Except.error "boom"))
      ({ base := JSVal.str "b" } : VariantsConfig) [] = Except.error "boom" :=
  (claim_C6 { base := JSVal.str "b" } [] (fun _ => Except.error "boom") id).2.2.1 "boom" rfl

/-- C7: when an axis's effective value is not a key of its option map,
the axis pushes the looked-up `undefined` and contributes nothing to the
joined output; and the resolver itself raises no error — with no hook or
with a hook that returns normally, every call returns `ok`. -/
theorem claim_C7 (schema : Schema) (dv props : List (String × JSVal)) :
    (∀ ax : String × AxisOptions,
       getSelectedVariant schema dv props ax.1 ≠ .und →
       hasOwn ax.2 (jsToString (getSelectedVariant schema dv props ax.1)) = false →
         axisPush schema dv props ax = [.und]
         ∧ ∀ l₁ l₂, joinClassNames (l₁ ++ axisPush schema dv props ax ++ l₂)
             = joinClassNames (l₁ ++ l₂))
    ∧ (∀ (ε : Type) (config : VariantsConfig) (g : String → String),
        resolveWithE (ε := ε) (some (fun s => Except.ok (g s))) config props
          = Except.ok (resolveWith (some g) config props))
    ∧ (∀ (ε : Type) (config : VariantsConfig),
        resolveWithE (ε := ε) none config props = Except.ok (resolveWith none config props)) := by
  refine ⟨?_, ?_, ?_⟩
  · intro ax hne hmiss
    have hpush : axisPush schema dv props ax = [.und] := by
      unfold axisPush
      cases hsel : getSelectedVariant schema dv props ax.1 with
      | und => exact absurd hsel hne
      | nul =>
        rw [hsel] at hmiss
        dsimp only
        rw [jget_eq_und_of_hasOwn_eq_false hmiss]
      | str s =>
        rw [hsel] at hmiss
        dsimp only
        rw [jget_eq_und_of_hasOwn_eq_false hmiss]
      | bool b =>
        rw [hsel] at hmiss
        dsimp only
        rw [jget_eq_und_of_hasOwn_eq_false hmiss]
      | obj t =>
        rw [hsel] at hmiss
        dsimp only
        rw [jget_eq_und_of_hasOwn_eq_false hmiss]
      | arr xs =>
        rw [hsel] at hmiss
        dsimp only
        rw [jget_eq_und_of_hasOwn_eq_false hmiss]
    refine ⟨hpush, ?_⟩
    intro l₁ l₂
    rw [hpush]
    exact joinClassNames_drop_mid (by rfl) l₁ l₂
  · intro ε config g
    unfold resolveWithE resolveWith mergeClassNamesE mergeClassNames
    cases config.variants <;> rfl
  · intro ε config
    unfold resolveWithE resolveWith mergeClassNamesE mergeClassNames
    cases config.variants <;> rfl

/-- Witness for C7: a known axis given an effective value that is not one
of its option keys pushes `undefined`, which flattens away. -/
theorem claim_C7_witness :
    axisPush [("color", [("primary", JSVal.str "p")])] [] [("color", JSVal.str "weird")]
        ("color", [("primary", JSVal.str "p")]) = [JSVal.und]
    ∧ joinClassNames
        ([JSVal.str "btn"]
          ++ axisPush [("color", [("primary", JSVal.str "p")])] [] [("color", JSVal.str "weird")]
              ("color", [("primary", JSVal.str "p")])
          ++ [JSVal.str "end"])
      = joinClassNames [JSVal.str "btn", JSVal.str "end"] := by
  have h := (claim_C7 [("color", [("primary", JSVal.str "p")])] [] [("color", JSVal.str "weird")]).1
    ("color", [("primary", JSVal.str "p")]) (fun hc => nomatch hc) rfl
  exact ⟨h.1, h.2 [JSVal.str "btn"] [JSVal.str "end"]⟩

/-- C8 (amended): for every splitter configuration and input object with
well-formed (duplicate-free) keys, the output carries exactly one
`className` key, bound to the resolved string for the extracted variant
props (whose override fragment is the caller's raw `className` value — the
raw value itself never survives); and every declared axis-name **other
than `className` itself** that is not forwarded is absent from the
output, while a forwarded axis-name keeps its presence and original
value.  The exclusion of the name `className` is forced by
`claim_C8_counterexample`. -/
theorem claim_C8 (hook : Option (String → String)) (config : VariantsConfig)
    (fps : Option (List String)) (props : List (String × JSVal))
    (hnd : NodupKeys props) :
    countKey (variantPropsResolver hook config fps props) "className" = 1
    ∧ jget (variantPropsResolver hook config fps props) "className"
        = .str (resolveWith hook config (splitterPair config fps props).2)
    ∧ jget (splitterPair config fps props).2 "className" = jget props "className"
    ∧ (∀ schema, config.variants = some schema →
        ∀ name, name ∈ schemaKeys schema → name ≠ "className" →
          (fwdContains fps name = false →
             hasOwn (variantPropsResolver hook config fps props) name = false)
          ∧ (fwdContains fps name = true →
             hasOwn (variantPropsResolver hook config fps props) name = hasOwn props name
               ∧ jget (variantPropsResolver hook config fps props) name = jget props name)) := by
  have hpairnd : NodupKeys (splitterPair config fps props).1 := by
    unfold splitterPair
    cases config.variants with
    | none => exact hnd
    | some schema => exact splitterLoop_fst_nodup fps schema _ hnd
  refine ⟨?_, ?_, ?_, ?_⟩
  · unfold variantPropsResolver
    exact countKey_setP_self "className" _ hpairnd
  · unfold variantPropsResolver
    exact jget_setP_self _ _ _
  · unfold splitterPair
    cases config.variants with
    | none => simp [jget]
    | some schema =>
      refine splitterLoop_snd_className fps (jget props "className") schema
        (props, [("className", jget props "className")]) (fun _ => rfl) ?_
      simp [jget]
  · intro schema hv name hmem hne
    have hsetget : ∀ v, jget (setP (splitterPair config fps props).1 "className" v) name
        = jget (splitterPair config fps props).1 name :=
      fun v => jget_setP_ne v (fun hh => hne hh.symm)
    have hsetown : ∀ v, hasOwn (setP (splitterPair config fps props).1 "className" v) name
        = hasOwn (splitterPair config fps props).1 name :=
      fun v => hasOwn_setP_ne v (fun hh => hne hh.symm)
    have hpair : (splitterPair config fps props).1
        = (schema.foldl (splitStep fps) (props, [("className", jget props "className")])).1 := by
      unfold splitterPair
      rw [hv]
    constructor
    · intro hfwd
      unfold variantPropsResolver
      rw [hsetown, hpair]
      exact splitterLoop_fst_deleted fps schema _ hmem hfwd
    · intro hfwd
      unfold variantPropsResolver
      rw [hsetown, hsetget, hpair]
      have h := splitterLoop_fst_forwarded fps schema
        (props, [("className", jget props "className")]) (k := name) hfwd
      exact ⟨h.2, h.1⟩

/-- Witness for C8: a concrete split — the variant key is consumed, the
output's `className` is the resolved string. -/
theorem claim_C8_witness :
    jget (variantPropsResolver none
        { variants := some [("color", [("primary", JSVal.str "bg-blue")])] }
        none [("color", JSVal.str "primary"), ("className", JSVal.str "user")]) "className"
      = JSVal.str "bg-blue user" :=
  ((claim_C8 none { variants := some [("color", [("primary", JSVal.str "bg-blue")])] }
      none [("color", JSVal.str "primary"), ("className", JSVal.str "user")]
      (by unfold NodupKeys; decide)).2.1).trans (by rfl)

/-- Counterexample to C8 as stated: an axis literally named `className`
is declared, present on the input, and not forwarded — yet the splitter's
output still owns the key `className` (it is re-created by the final
resolved-class-name assignment), so the claim's "absent from the output"
fails for this axis-name. -/
theorem claim_C8_counterexample :
    "className" ∈ schemaKeys [("className", [("x", JSVal.str "cx")])]
    ∧ fwdContains none "className" = false
    ∧ hasOwn [("className", JSVal.str "x")] "className" = true
    ∧ hasOwn (variantPropsResolver none
        { variants := some [("className", [("x", JSVal.str "cx")])] }
        none [("className", JSVal.str "x")]) "className" = true := by
  refine ⟨?_, rfl, rfl, by rfl⟩
  simp [schemaKeys]

/-- C9: the splitter preserves every input key that is neither a declared
axis-name nor `className`, bound to its original value (the input object
itself is never mutated: the embedding operates on the explicit shallow
copy the source creates). -/
theorem claim_C9 (hook : Option (String → String)) (config : VariantsConfig)
    (fps : Option (List String)) (props : List (String × JSVal)) (k : String)
    (hk : ∀ schema, config.variants = some schema → k ∉ schemaKeys schema)
    (hc : k ≠ "className") :
    jget (variantPropsResolver hook config fps props) k = jget props k
    ∧ hasOwn (variantPropsResolver hook config fps props) k = hasOwn props k := by
  have hpair : jget (splitterPair config fps props).1 k = jget props k
      ∧ hasOwn (splitterPair config fps props).1 k = hasOwn props k := by
    unfold splitterPair
    cases hv : config.variants with
    | none => exact ⟨rfl, rfl⟩
    | some schema =>
      refine splitterLoop_fst_preserve_notin fps schema _ ?_
      intro ax hax hcontra
      exact hk schema hv (hcontra ▸ List.mem_map_of_mem Prod.fst hax)
  unfold variantPropsResolver
  constructor
  · rw [jget_setP_ne _ (fun hh => hc hh.symm)]
    exact hpair.1
  · rw [hasOwn_setP_ne _ (fun hh => hc hh.symm)]
    exact hpair.2

/-- Witness for C9: a non-variant key (`id`) passes through with its
original (opaque) value. -/
theorem claim_C9_witness :
    jget (variantPropsResolver none
        { variants := some [("color", [("primary", JSVal.str "bg-blue")])] }
        none [("color", JSVal.str "primary"), ("id", JSVal.obj 7)]) "id"
      = JSVal.obj 7 :=
  ((claim_C9 none { variants := some [("color", [("primary", JSVal.str "bg-blue")])] }
      none [("color", JSVal.str "primary"), ("id", JSVal.obj 7)] "id"
      (by intro schema hs; cases hs; decide) (by decide)).1).trans (by rfl)

/-- C10 (amended): with a variants map present, a falsy `className`
override (absent key, null/undefined, or the empty string) resolves
identically to the same request with the `className` key removed,
**provided no variant axis and no compound-rule condition is named
`className`**.  The proviso is forced by `claim_C10_counterexample`:
without it an empty-string `className` is read back as an axis selection
or condition value and can change the output. -/
theorem claim_C10 (hook : Option (String → String)) (config : VariantsConfig)
    (schema : Schema) (props : List (String × JSVal))
    (hv : config.variants = some schema)
    (h1 : "className" ∉ schemaKeys schema)
    (h2 : ∀ rule ∈ config.compoundVariants, "className" ∉ rule.variants.map Prod.fst)
    (h3 : (jget props "className").truthy = false) :
    resolveWith hook config props = resolveWith hook config (delP props "className") := by
  have hgsv : ∀ name, name ≠ "className" →
      getSelectedVariant schema config.defaultVariants (delP props "className") name
        = getSelectedVariant schema config.defaultVariants props name := by
    intro name hn
    unfold getSelectedVariant
    rw [jget_delP_ne (fun hh => hn hh.symm)]
  unfold resolveWith
  rw [hv]
  dsimp only
  rw [resolveList_eq, resolveList_eq]
  have hax : schema.flatMap (axisPush schema config.defaultVariants (delP props "className"))
      = schema.flatMap (axisPush schema config.defaultVariants props) := by
    refine list_flatMap_congr ?_
    intro ax hax
    have hn : ax.1 ≠ "className" := by
      intro hh
      exact h1 (hh ▸ List.mem_map_of_mem Prod.fst hax)
    unfold axisPush
    rw [hgsv ax.1 hn]
  have hcv : config.compoundVariants.filter
        (ruleMatches schema config.defaultVariants (delP props "className"))
      = config.compoundVariants.filter (ruleMatches schema config.defaultVariants props) := by
    refine List.filter_congr ?_
    intro rule hrule
    unfold ruleMatches
    refine list_all_congr ?_
    intro p hp
    have hn : p.1 ≠ "className" := by
      intro hh
      exact h2 rule hrule (hh ▸ List.mem_map_of_mem Prod.fst hp)
    rw [hgsv p.1 hn]
  have hov : overridePush (delP props "className") = overridePush props := by
    unfold overridePush
    rw [jget_delP_self, h3]
    rfl
  rw [hax, hcv, hov]

/-- Witness for C10: removing an empty-string `className` from the
request leaves the output unchanged when no axis is named `className`. -/
theorem claim_C10_witness :
    resolveWith none
      { base := JSVal.str "btn",
        variants := some [("color", [("primary", JSVal.str "bg-blue")])] }
      [("className", JSVal.str "")]
      = resolveWith none
          { base := JSVal.str "btn",
            variants := some [("color", [("primary", JSVal.str "bg-blue")])] }
          (delP [("className", JSVal.str "")] "className") :=
  claim_C10 none
    { base := JSVal.str "btn",
      variants := some [("color", [("primary", JSVal.str "bg-blue")])] }
    [("color", [("primary", JSVal.str "bg-blue")])]
    [("className", JSVal.str "")] rfl (by decide)
    (by intro rule hr; cases hr) rfl

/-- Counterexample to C10 as stated: the claim quantifies over **every**
configuration with a variants map, but when an axis (first conjunct) or a
compound condition (second conjunct) is literally named `className`, an
empty-string override — although falsy — is read back through
`props?.["className"]` as a non-nullish selection, so removing the key
changes the output. -/
theorem claim_C10_counterexample :
    ((jget [("className", JSVal.str "")] "className").truthy = false
      ∧ delP [("className", JSVal.str "")] "className" = []
      ∧ resolveWith none { variants := some [("className", [("", JSVal.str "EK")])] }
          [("className", JSVal.str "")] = "EK"
      ∧ resolveWith none { variants := some [("className", [("", JSVal.str "EK")])] } [] = ""
      ∧ resolveWith none { variants := some [("className", [("", JSVal.str "EK")])] }
          [("className", JSVal.str "")]
        ≠ resolveWith none { variants := some [("className", [("", JSVal.str "EK")])] } [])
    ∧ (resolveWith none
          { variants := some [("c", [("x", JSVal.str "cx")])],
            compoundVariants :=
              [{ variants := [("className", JSVal.str "")], className := JSVal.str "COMP" }] }
          [("className", JSVal.str "")] = "COMP"
        ∧ resolveWith none
            { variants := some [("c", [("x", JSVal.str "cx")])],
              compoundVariants :=
                [{ variants := [("className", JSVal.str "")], className := JSVal.str "COMP" }] }
            [] = ""
        ∧ resolveWith none
            { variants := some [("c", [("x", JSVal.str "cx")])],
              compoundVariants :=
                [{ variants := [("className", JSVal.str "")], className := JSVal.str "COMP" }] }
            [("className", JSVal.str "")]
          ≠ resolveWith none
              { variants := some [("c", [("x", JSVal.str "cx")])],
                compoundVariants :=
                  [{ variants := [("className", JSVal.str "")], className := JSVal.str "COMP" }] }
              []) := by
  refine ⟨⟨rfl, rfl, rfl, rfl, ?_⟩, rfl, rfl, ?_⟩
  · intro hc
    have hs : ("EK" : String) = "" := hc
    exact absurd hs (by decide)
  · intro hc
    have hs : ("COMP" : String) = "" := hc
    exact absurd hs (by decide)

end RCV
